import Mathlib

/-!
# athena-query: submit, poll, paginate, format

A shallow embedding of `main.go`.  The program talks to three things outside
itself: the Athena service (through the AWS SDK), the clock (`time.Sleep`) and
standard output.  Here the service is a script of responses, one per request the
program makes, and every call the program makes to the outside is recorded, in
order, in a list of events.  A Go pointer is an `Option`; dereferencing a nil
pointer is the outcome `panic nilDereference`.
-/

namespace AthenaQuery

/-! ## Values of the SDK (`github.com/aws/aws-sdk-go/service/athena`) -/

/-- A cell of a row: `athena.Datum`, whose `VarCharValue` is a `*string`. -/
structure Datum where
  VarCharValue : Option String
deriving DecidableEq, Repr

/-- A row: `athena.Row`, whose `Data` is a `[]*Datum`. -/
structure Row where
  Data : List (Option Datum)
deriving DecidableEq, Repr

/-- A column descriptor: `athena.ColumnInfo`, of which the program reads the
field `Name *string`. -/
structure ColumnInfo where
  Name : Option String
deriving DecidableEq, Repr

/-- The column descriptors of a result set: `athena.ResultSetMetadata`, whose
`ColumnInfo` is a `[]*ColumnInfo`. -/
structure ResultSetMetadata where
  ColumnInfo : List (Option ColumnInfo)
deriving DecidableEq, Repr

/-- The payload of one result page: `athena.ResultSet`, with
`ResultSetMetadata *ResultSetMetadata` and `Rows []*Row`. -/
structure ResultSet where
  ResultSetMetadata : Option ResultSetMetadata
  Rows : List (Option Row)
deriving DecidableEq, Repr

/-- One result page: `athena.GetQueryResultsOutput`, with `ResultSet *ResultSet`. -/
structure GetQueryResultsOutput where
  ResultSet : Option ResultSet
deriving DecidableEq, Repr

/-- The `athena.QueryExecutionStatus` of an execution, with `State *string`. -/
structure QueryExecutionStatus where
  State : Option String
  StateChangeReason : Option String
deriving DecidableEq, Repr

/-- The `athena.QueryExecution` of a status response, with
`Status *QueryExecutionStatus`. -/
structure QueryExecution where
  Status : Option QueryExecutionStatus
deriving DecidableEq, Repr

/-- The response of a status call: `athena.GetQueryExecutionOutput`, with
`QueryExecution *QueryExecution`. -/
structure GetQueryExecutionOutput where
  QueryExecution : Option QueryExecution
deriving DecidableEq, Repr

/-- The response of the submit call: `athena.StartQueryExecutionOutput`, with
`QueryExecutionId *string`. -/
structure StartQueryExecutionOutput where
  QueryExecutionId : Option String
deriving DecidableEq, Repr

/-- The constant `athena.QueryExecutionStateQueued`. -/
def QueryExecutionStateQueued : String := "QUEUED"

/-- The constant `athena.QueryExecutionStateRunning`. -/
def QueryExecutionStateRunning : String := "RUNNING"

/-- The constant `athena.QueryExecutionStateSucceeded`. -/
def QueryExecutionStateSucceeded : String := "SUCCEEDED"

/-- The constant `athena.QueryExecutionStateFailed`. -/
def QueryExecutionStateFailed : String := "FAILED"

/-- The constant `athena.QueryExecutionStateCancelled`. -/
def QueryExecutionStateCancelled : String := "CANCELLED"

/-! ## Errors, panics and outcomes -/

/-- A non-nil Go `error`: one handed back by an SDK call, or one the program
makes with `errors.New`.  The nil `error` is `none : Option Error`. -/
inductive Error where
  | aws (message : String)
  | New (text : String)
deriving DecidableEq, Repr

/-- What a Go panic carries: the runtime error of a nil dereference, or the
error given to `panic(err)`. -/
inductive Panic where
  | nilDereference
  | error (err : Error)
deriving DecidableEq, Repr

/-- How a call ends: it returns a value, it panics, or the script of service
responses is used up while the call still waits for one. -/
inductive Outcome (α : Type) where
  | ret (a : α)
  | panic (p : Panic)
  | blocked
deriving DecidableEq, Repr

/-- The calls the program makes to the outside, with their arguments. -/
inductive Event where
  | StartQueryExecution (QueryString : String) (OutputLocation : String)
  | GetQueryExecution (QueryExecutionId : Option String)
  | Sleep (d : Nat)
  | GetQueryResults (QueryExecutionId : Option String) (MaxResults : Int)
  | Printf (text : String)
  | Render (header : List String) (lines : List (List String))
deriving DecidableEq, Repr

/-- A run of a piece of the program: the events it caused, in order, and how
it ended. -/
abbrev Run (α : Type) : Type := List Event × Outcome α

/-- Events `es` happen, then the run `r`. -/
def Run.after {α : Type} (es : List Event) (r : Run α) : Run α :=
  (es ++ r.1, r.2)

/-- Sequencing: `f` runs on the value `x` returned, if it returned. -/
def Run.bind {α β : Type} (x : Run α) (f : α → Run β) : Run β :=
  match x.2 with
  | .ret a => (x.1 ++ (f a).1, (f a).2)
  | .panic p => (x.1, .panic p)
  | .blocked => (x.1, .blocked)

/-! ## The outside world -/

/-- One response of the service to a page request, as
`GetQueryResultsPages` hands it on: a page with the flag `lastPage`, or the
error of the request. -/
inductive GetQueryResultsResponse where
  | page (page : GetQueryResultsOutput) (lastPage : Bool)
  | error (err : Error)
deriving DecidableEq, Repr

/-- What the program finds outside itself: the environment variable
`ATHENA_OUTPUT_LOCATION`, and the responses of the service to the submit call,
to the successive status calls and to the successive page requests. -/
structure World where
  ATHENA_OUTPUT_LOCATION : String
  StartQueryExecution : Except Error StartQueryExecutionOutput
  GetQueryExecution : List (Except Error GetQueryExecutionOutput)
  GetQueryResults : List GetQueryResultsResponse

/-- The constant `time.Second`, in nanoseconds. -/
def Second : Nat := 1000000000

/-! ## `execute` -/

/-- The expression `*executionOutput.QueryExecution.Status.State`: `none` when
one of the three pointers is nil. -/
def stateOf (executionOutput : GetQueryExecutionOutput) : Option String :=
  match executionOutput.QueryExecution with
  | none => none
  | some queryExecution =>
    match queryExecution.Status with
    | none => none
    | some status => status.State

/-- The `for` loop of `execute` (lines 77-90).  `str` is the SDK's
`executionOutput.String()`. -/
def execute.loop (str : GetQueryExecutionOutput → String) (id : Option String) :
    List (Except Error GetQueryExecutionOutput) → Run (Option String × Option Error)
  | [] => ([.GetQueryExecution id], .blocked)
  | .error err :: _ => ([.GetQueryExecution id], .ret (none, some err))
  | .ok executionOutput :: rest =>
    match stateOf executionOutput with
    | none => ([.GetQueryExecution id], .panic .nilDereference)
    | some state =>
      if state = QueryExecutionStateQueued ∨ state = QueryExecutionStateRunning then
        Run.after [.GetQueryExecution id, .Sleep (5 * Second)] (execute.loop str id rest)
      else if state = QueryExecutionStateSucceeded then
        ([.GetQueryExecution id], .ret (id, none))
      else
        ([.GetQueryExecution id], .ret (none, some (.New (str executionOutput))))

/-- The function `execute` (lines 56-91). -/
def execute (str : GetQueryExecutionOutput → String) (client : World) (query : String) :
    Run (Option String × Option Error) :=
  match client.StartQueryExecution with
  | .error err =>
    ([.StartQueryExecution query client.ATHENA_OUTPUT_LOCATION], .ret (none, some err))
  | .ok output =>
    Run.after [.StartQueryExecution query client.ATHENA_OUTPUT_LOCATION]
      (execute.loop str output.QueryExecutionId client.GetQueryExecution)

/-! ## `result` -/

/-- The variables `metadata` and `pages` of `result`, which its callback
updates. -/
structure result.Vars where
  metadata : Option ResultSetMetadata
  pages : List (List (Option Row))
deriving DecidableEq, Repr

/-- The callback `result` gives to `GetQueryResultsPages` (lines 101-111): the
variables after the call and the boolean returned, or `none` when `page.ResultSet`
is nil and its dereference panics. -/
def result.callback (vars : result.Vars) (page : GetQueryResultsOutput) (lastPage : Bool) :
    Option (result.Vars × Bool) :=
  match page.ResultSet with
  | none => none
  | some resultSet =>
    let metadata :=
      if vars.metadata.isNone then resultSet.ResultSetMetadata else vars.metadata
    let pages := vars.pages ++ [resultSet.Rows]
    if lastPage then some (⟨metadata, pages⟩, false) else some (⟨metadata, pages⟩, true)

/-- The SDK's `GetQueryResultsPages`: it requests page after page, hands each to
`fn` with the flag `lastPage`, stops with the last page or when `fn` returns
false, and returns the error of a failed request. -/
def GetQueryResultsPages {σ : Type} (request : Event)
    (fn : σ → GetQueryResultsOutput → Bool → Option (σ × Bool)) :
    List GetQueryResultsResponse → σ → Run (σ × Option Error)
  | [], _ => ([request], .blocked)
  | .error err :: _, vars => ([request], .ret (vars, some err))
  | .page page lastPage :: rest, vars =>
    match fn vars page lastPage with
    | none => ([request], .panic .nilDereference)
    | some (vars, goOn) =>
      if goOn = true ∧ lastPage = false then
        Run.after [request] (GetQueryResultsPages request fn rest vars)
      else
        ([request], .ret (vars, none))

/-- The function `result` (lines 93-116).  The slice returned is `none` for the
nil slice. -/
def result (client : World) (queryExecutionId : Option String) (perPage : Int) :
    Run (Option ResultSetMetadata × Option (List (List (Option Row))) × Option Error) :=
  Run.bind
    (GetQueryResultsPages (.GetQueryResults queryExecutionId perPage) result.callback
      client.GetQueryResults ⟨none, []⟩)
    fun (vars, err) =>
      match err with
      | some err => ([], .ret (none, none, some err))
      | none => ([], .ret (vars.metadata, some vars.pages, none))

/-! ## `output` -/

/-- The loop over `row.Data` of `output` (lines 122-128), from index `i` on. -/
def output.fill : List (Option Datum) → Nat → List String → List String
  | [], _, strRow => strRow
  | col :: rest, i, strRow =>
    match col with
    | none => output.fill rest (i + 1) (strRow.set i "null")
    | some datum =>
      match datum.VarCharValue with
      | none => output.fill rest (i + 1) (strRow.set i "null")
      | some value => output.fill rest (i + 1) (strRow.set i value)

/-- The string row `output` builds for a row (lines 121-128). -/
def output.strRow (row : Row) : List String :=
  output.fill row.Data 0 (List.replicate row.Data.length "")

/-- The loop over the rows of a page of `output` (lines 120-130). -/
def output.page : List (Option Row) → Run Unit
  | [] => ([], .ret ())
  | none :: _ => ([], .panic .nilDereference)
  | some row :: rest =>
    Run.after [.Printf (String.intercalate "," (output.strRow row) ++ "\n")] (output.page rest)

/-- The loop over the pages of `output` (lines 119-131). -/
def output.pages : List (List (Option Row)) → Run Unit
  | [] => ([], .ret ())
  | page :: rest => Run.bind (output.page page) fun _ => output.pages rest

/-- The function `output` (lines 118-133).  A nil slice of pages ranges as the
empty one. -/
def output (_metadata : Option ResultSetMetadata) (pages : Option (List (List (Option Row))))
    (_perPage : Int) : Run (Option Error) :=
  Run.bind (output.pages (pages.getD [])) fun _ => ([], .ret none)

/-! ## `outputTable` -/

/-- The table of `github.com/olekukonko/tablewriter`: the header set and the
rows appended so far. -/
structure Table where
  header : List String
  lines : List (List String)
deriving DecidableEq, Repr

/-- The loop over `metadata.ColumnInfo` of `outputTable` (lines 139-141), from
index `i` on; `none` when `h` or `h.Name` is nil and its dereference panics. -/
def outputTable.fillHeader : List (Option ColumnInfo) → Nat → List String → Option (List String)
  | [], _, header => some header
  | h :: rest, i, header =>
    match h with
    | none => none
    | some columnInfo =>
      match columnInfo.Name with
      | none => none
      | some name => outputTable.fillHeader rest (i + 1) (header.set i name)

/-- The loop over `row.Data` of `outputTable` (lines 147-153), from index `i` on. -/
def outputTable.fill : List (Option Datum) → Nat → List String → List String
  | [], _, strRow => strRow
  | col :: rest, i, strRow =>
    match col with
    | none => outputTable.fill rest (i + 1) (strRow.set i "null")
    | some datum =>
      match datum.VarCharValue with
      | none => outputTable.fill rest (i + 1) (strRow.set i "null")
      | some value => outputTable.fill rest (i + 1) (strRow.set i value)

/-- The string row `outputTable` builds for a row (lines 146-153). -/
def outputTable.strRow (row : Row) : List String :=
  outputTable.fill row.Data 0 (List.replicate row.Data.length "")

/-- The loop over the rows of a page of `outputTable` (lines 145-155): the table
after it, or `none` when a row is nil and its dereference panics. -/
def outputTable.page : List (Option Row) → Table → Option Table
  | [], table => some table
  | none :: _, _ => none
  | some row :: rest, table =>
    outputTable.page rest { table with lines := table.lines ++ [outputTable.strRow row] }

/-- The loop over the pages of `outputTable` (lines 144-156). -/
def outputTable.pages : List (List (Option Row)) → Table → Option Table
  | [], table => some table
  | page :: rest, table =>
    match outputTable.page page table with
    | none => none
    | some table => outputTable.pages rest table

/-- The function `outputTable` (lines 135-159).  `table.Render()` writes the
table to standard output: the event `Render`. -/
def outputTable (metadata : Option ResultSetMetadata)
    (pages : Option (List (List (Option Row)))) (_perPage : Int) : Run (Option Error) :=
  match metadata with
  | none => ([], .panic .nilDereference)
  | some metadata =>
    match outputTable.fillHeader metadata.ColumnInfo 0
        (List.replicate metadata.ColumnInfo.length "") with
    | none => ([], .panic .nilDereference)
    | some header =>
      match outputTable.pages (pages.getD []) { header := header, lines := [] } with
      | none => ([], .panic .nilDereference)
      | some table => ([.Render table.header table.lines], .ret none)

/-! ## `main` -/

/-- The function `main` (lines 22-54), after `flag.Parse()`: `readableOpt` and
`queryOpt` are the values of the flags `-h` and `-q`. -/
def main (str : GetQueryExecutionOutput → String) (client : World) (readableOpt : Bool)
    (queryOpt : String) : Run Unit :=
  let query := queryOpt
  Run.bind (execute str client query) fun (id, err) =>
    match err with
    | some err => ([], .panic (.error err))
    | none =>
      let perPage : Int := 100
      Run.bind (result client id perPage) fun (metadata, pages, err) =>
        match err with
        | some err => ([], .panic (.error err))
        | none =>
          if readableOpt then
            Run.bind (outputTable metadata pages perPage) fun err =>
              match err with
              | some err => ([], .panic (.error err))
              | none => ([], .ret ())
          else
            Run.bind (output metadata pages perPage) fun err =>
              match err with
              | some err => ([], .panic (.error err))
              | none => ([], .ret ())

/-! ## Vocabulary of the statements -/

/-- The text `fmt.Printf` wrote to standard output during the events `es`. -/
def printed : List Event → String
  | [] => ""
  | .Printf text :: es => text ++ printed es
  | _ :: es => printed es

/-- Whether an event is a page request to the service. -/
def Event.isFetch : Event → Bool
  | .GetQueryResults _ _ => true
  | _ => false

/-- Whether an event writes to standard output. -/
def Event.isStdout : Event → Bool
  | .Printf _ => true
  | .Render _ _ => true
  | _ => false

/-- Whether an event is a status poll. -/
def Event.isPoll : Event → Bool
  | .GetQueryExecution _ => true
  | _ => false

/-- Whether an event is a sleep. -/
def Event.isSleep : Event → Bool
  | .Sleep _ => true
  | _ => false

/-- The text of a cell as the specification words it: the literal `null` for
a cell that is absent or holds a null value, the value otherwise. -/
def cellText : Option Datum → String
  | none => "null"
  | some datum =>
    match datum.VarCharValue with
    | none => "null"
    | some value => value

/-- The pages of a slice `[][]*athena.Row` all of whose pointers refer to
rows. -/
def rowPages (pages : List (List Row)) : List (List (Option Row)) :=
  pages.map fun page => page.map some

/-- A status response that reports the state `state`. -/
def observed (state : String) : Except Error GetQueryExecutionOutput :=
  .ok ⟨some ⟨some ⟨some state, none⟩⟩⟩

/-- A page that carries a result set, not the last one. -/
def GetQueryResultsResponse.more (resultSet : ResultSet) : GetQueryResultsResponse :=
  .page ⟨some resultSet⟩ false

/-- A page that carries a result set, flagged as the last one. -/
def GetQueryResultsResponse.last (resultSet : ResultSet) : GetQueryResultsResponse :=
  .page ⟨some resultSet⟩ true

/-- A row whose cells all hold a value. -/
def Row.ofStrings (values : List String) : Row :=
  ⟨values.map fun value => some ⟨some value⟩⟩

/-- The responses by which the service delivers the non-empty sequence of
result sets `p, ps`: one page each, in order, the last one flagged as last page. -/
def delivered : ResultSet → List ResultSet → List GetQueryResultsResponse
  | p, [] => [.last p]
  | p, q :: ps => .more p :: delivered q ps

/-- The first non-nil `ResultSetMetadata` of a sequence of result sets. -/
def firstMetadata (sets : List ResultSet) : Option ResultSetMetadata :=
  sets.findSome? fun resultSet => resultSet.ResultSetMetadata

/-- The variables of `result` after its callback has seen the result sets
`sets`, starting from `vars`. -/
def result.Vars.seen (vars : result.Vars) (sets : List ResultSet) : result.Vars :=
  ⟨match vars.metadata with
    | some metadata => some metadata
    | none => firstMetadata sets,
   vars.pages ++ sets.map fun resultSet => resultSet.Rows⟩

/-- The line `output` prints for a string row. -/
def lineOf (strRow : List String) : Event :=
  .Printf (String.intercalate "," strRow ++ "\n")

/-! ## Lemmas on runs -/

theorem Run.after_fst {α : Type} (es : List Event) (r : Run α) :
    (Run.after es r).1 = es ++ r.1 := rfl

theorem Run.after_snd {α : Type} (es : List Event) (r : Run α) :
    (Run.after es r).2 = r.2 := rfl

theorem Run.bind_ret {α β : Type} (es : List Event) (a : α) (f : α → Run β) :
    Run.bind (es, .ret a) f = (es ++ (f a).1, (f a).2) := rfl

/-! ## `execute` -/

/-- While the service reports Queued or Running, the loop polls, sleeps five
seconds and goes on with the next response. -/
theorem execute_loop_waiting (str : GetQueryExecutionOutput → String) (id : Option String)
    (waiting : List GetQueryExecutionOutput) (rest : List (Except Error GetQueryExecutionOutput))
    (hwaiting : ∀ o ∈ waiting, stateOf o = some QueryExecutionStateQueued ∨
      stateOf o = some QueryExecutionStateRunning) :
    execute.loop str id (waiting.map .ok ++ rest) =
      Run.after (waiting.flatMap fun _ => [.GetQueryExecution id, .Sleep (5 * Second)])
        (execute.loop str id rest) := by
  induction waiting with
  | nil => simp [Run.after]
  | cons o os ih =>
    have ho := hwaiting o (List.mem_cons_self _ _)
    have hos : ∀ o ∈ os, stateOf o = some QueryExecutionStateQueued ∨
        stateOf o = some QueryExecutionStateRunning :=
      fun x hx => hwaiting x (List.mem_cons_of_mem _ hx)
    rcases ho with ho | ho <;>
      simp [execute.loop, ho, ih hos, Run.after]

/-- Every event of the loop of `execute` is a status poll or a sleep. -/
theorem execute_loop_events (str : GetQueryExecutionOutput → String) (id : Option String)
    (responses : List (Except Error GetQueryExecutionOutput)) :
    ∀ e ∈ (execute.loop str id responses).1, e.isFetch = false ∧ e.isStdout = false := by
  induction responses with
  | nil => simp [execute.loop, Event.isFetch, Event.isStdout]
  | cons r rs ih =>
    cases r with
    | error err => simp [execute.loop, Event.isFetch, Event.isStdout]
    | ok o =>
      unfold execute.loop
      cases hst : stateOf o with
      | none => simp [Event.isFetch, Event.isStdout]
      | some state =>
        simp only []
        split_ifs
        · intro e he
          simp only [Run.after_fst, List.mem_append, List.mem_cons, List.mem_singleton,
            List.not_mem_nil, or_false] at he
          rcases he with (he | he) | he
          · subst he; simp [Event.isFetch, Event.isStdout]
          · subst he; simp [Event.isFetch, Event.isStdout]
          · exact ih e he
        · simp [Event.isFetch, Event.isStdout]
        · simp [Event.isFetch, Event.isStdout]

/-- Every event of `execute` is the submit call, a status poll or a sleep: no
page request and nothing on standard output. -/
theorem execute_events (str : GetQueryExecutionOutput → String) (client : World)
    (query : String) :
    ∀ e ∈ (execute str client query).1, e.isFetch = false ∧ e.isStdout = false := by
  unfold execute
  cases client.StartQueryExecution with
  | error err => simp [Event.isFetch, Event.isStdout]
  | ok output =>
    intro e he
    simp only [Run.after_fst, List.mem_append, List.mem_singleton] at he
    rcases he with he | he
    · subst he; simp [Event.isFetch, Event.isStdout]
    · exact execute_loop_events str _ _ e he

/-- C1: when the status calls succeed and report zero or more Queued or Running
states and then a state that is none of Queued, Running and Succeeded, `execute`
returns a nil identifier and an error (the one made from the text of that last
response), not the identifier of the submit call. -/
theorem execute_fails_on_other_state (str : GetQueryExecutionOutput → String)
    (client : World) (query : String) (output : StartQueryExecutionOutput)
    (waiting : List GetQueryExecutionOutput) (final : GetQueryExecutionOutput)
    (state : String) (rest : List (Except Error GetQueryExecutionOutput))
    (hstart : client.StartQueryExecution = .ok output)
    (hpoll : client.GetQueryExecution = waiting.map .ok ++ .ok final :: rest)
    (hwaiting : ∀ o ∈ waiting, stateOf o = some QueryExecutionStateQueued ∨
      stateOf o = some QueryExecutionStateRunning)
    (hfinal : stateOf final = some state)
    (hq : state ≠ QueryExecutionStateQueued) (hr : state ≠ QueryExecutionStateRunning)
    (hs : state ≠ QueryExecutionStateSucceeded) :
    (execute str client query).2 = .ret (none, some (.New (str final))) := by
  unfold execute
  rw [hstart, hpoll]
  simp only [Run.after_snd, execute_loop_waiting str _ waiting _ hwaiting]
  simp [execute.loop, hfinal, hq, hr, hs]

/-- C1 at the statuses Queued, Running, Failed. -/
theorem execute_fails_on_other_state_witness :
    (execute (fun _ => "diagnostic")
      ⟨"s3://bucket", .ok ⟨some "id"⟩,
        [observed "QUEUED", observed "RUNNING", observed "FAILED", observed "SUCCEEDED"], []⟩
      "select 1").2 = .ret (none, some (.New "diagnostic")) :=
  execute_fails_on_other_state (fun _ => "diagnostic")
    ⟨"s3://bucket", .ok ⟨some "id"⟩,
      [observed "QUEUED", observed "RUNNING", observed "FAILED", observed "SUCCEEDED"], []⟩
    "select 1" ⟨some "id"⟩
    [⟨some ⟨some ⟨some "QUEUED", none⟩⟩⟩, ⟨some ⟨some ⟨some "RUNNING", none⟩⟩⟩]
    ⟨some ⟨some ⟨some "FAILED", none⟩⟩⟩ "FAILED" [observed "SUCCEEDED"]
    rfl rfl (by decide) rfl (by decide) (by decide) (by decide)

/-- C2: when the status calls succeed and report `n` Queued or Running states
and then Succeeded, `execute` submits, then `n` times polls and sleeps five
seconds, then polls once more and returns the identifier of the submit call with
a nil error: `n + 1` polls, `n` sleeps, each of `5 * time.Second`. -/
theorem execute_succeeds (str : GetQueryExecutionOutput → String)
    (client : World) (query : String) (output : StartQueryExecutionOutput)
    (waiting : List GetQueryExecutionOutput) (final : GetQueryExecutionOutput)
    (rest : List (Except Error GetQueryExecutionOutput))
    (hstart : client.StartQueryExecution = .ok output)
    (hpoll : client.GetQueryExecution = waiting.map .ok ++ .ok final :: rest)
    (hwaiting : ∀ o ∈ waiting, stateOf o = some QueryExecutionStateQueued ∨
      stateOf o = some QueryExecutionStateRunning)
    (hfinal : stateOf final = some QueryExecutionStateSucceeded) :
    execute str client query =
        (Event.StartQueryExecution query client.ATHENA_OUTPUT_LOCATION ::
          ((waiting.flatMap fun _ =>
              [Event.GetQueryExecution output.QueryExecutionId, Event.Sleep (5 * Second)]) ++
            [Event.GetQueryExecution output.QueryExecutionId]),
          .ret (output.QueryExecutionId, none)) ∧
      ((execute str client query).1.filter Event.isPoll).length = waiting.length + 1 ∧
      (execute str client query).1.filter Event.isSleep =
        List.replicate waiting.length (Event.Sleep (5 * Second)) := by
  have hrun : execute str client query =
      (Event.StartQueryExecution query client.ATHENA_OUTPUT_LOCATION ::
        ((waiting.flatMap fun _ =>
            [Event.GetQueryExecution output.QueryExecutionId, Event.Sleep (5 * Second)]) ++
          [Event.GetQueryExecution output.QueryExecutionId]),
        .ret (output.QueryExecutionId, none)) := by
    unfold execute
    rw [hstart, hpoll]
    simp only [execute_loop_waiting str _ waiting _ hwaiting]
    have hne : ¬ (QueryExecutionStateSucceeded = QueryExecutionStateQueued ∨
        QueryExecutionStateSucceeded = QueryExecutionStateRunning) := by decide
    simp [execute.loop, hfinal, hne, Run.after]
  refine ⟨hrun, ?_, ?_⟩
  · rw [hrun]
    clear hrun hpoll hwaiting
    induction waiting with
    | nil => simp [Event.isPoll]
    | cons o os ih =>
      simp only [List.flatMap_cons, List.filter_cons, Event.isPoll, List.cons_append,
        List.length_cons, List.nil_append] at ih ⊢
      simpa using ih
  · rw [hrun]
    clear hrun hpoll hwaiting
    induction waiting with
    | nil => simp [Event.isSleep]
    | cons o os ih =>
      simp only [List.flatMap_cons, List.filter_cons, Event.isSleep, List.cons_append,
        List.length_cons, List.nil_append, List.replicate_succ] at ih ⊢
      simpa using ih

/-- C2 at the statuses Queued, Running, Succeeded. -/
theorem execute_succeeds_witness :
    execute (fun _ => "diagnostic")
        ⟨"s3://bucket", .ok ⟨some "id"⟩,
          [observed "QUEUED", observed "RUNNING", observed "SUCCEEDED"], []⟩ "select 1" =
      ([.StartQueryExecution "select 1" "s3://bucket",
          .GetQueryExecution (some "id"), .Sleep 5000000000,
          .GetQueryExecution (some "id"), .Sleep 5000000000,
          .GetQueryExecution (some "id")],
        .ret (some "id", none)) :=
  (execute_succeeds (fun _ => "diagnostic")
    ⟨"s3://bucket", .ok ⟨some "id"⟩,
      [observed "QUEUED", observed "RUNNING", observed "SUCCEEDED"], []⟩
    "select 1" ⟨some "id"⟩
    [⟨some ⟨some ⟨some "QUEUED", none⟩⟩⟩, ⟨some ⟨some ⟨some "RUNNING", none⟩⟩⟩]
    ⟨some ⟨some ⟨some "SUCCEEDED", none⟩⟩⟩ []
    rfl rfl (by decide) rfl).1

/-! ## `result` -/

/-- Pages that are not the last one are requested, accumulated, and the
pagination goes on with the next response. -/
theorem GetQueryResultsPages_more (request : Event) (sets : List ResultSet)
    (rest : List GetQueryResultsResponse) (vars : result.Vars) :
    GetQueryResultsPages request result.callback (sets.map .more ++ rest) vars =
      Run.after (List.replicate sets.length request)
        (GetQueryResultsPages request result.callback rest (vars.seen sets)) := by
  induction sets generalizing vars with
  | nil =>
    cases vars with
    | mk metadata pages => cases metadata <;> simp [Run.after, result.Vars.seen, firstMetadata]
  | cons p ps ih =>
    cases vars with
    | mk metadata pages =>
      cases metadata with
      | none =>
        cases hp : p.ResultSetMetadata <;>
          simp [GetQueryResultsPages, result.callback, GetQueryResultsResponse.more, ih,
            Run.after, result.Vars.seen, firstMetadata, hp, List.replicate_succ]
      | some metadata =>
        simp [GetQueryResultsPages, result.callback, GetQueryResultsResponse.more, ih,
          Run.after, result.Vars.seen, firstMetadata, List.replicate_succ]

/-- The pagination over a delivered sequence of result sets makes one request
per page and ends, without error, with every page accumulated in order. -/
theorem GetQueryResultsPages_delivered (request : Event) (p : ResultSet) (ps : List ResultSet)
    (rest : List GetQueryResultsResponse) (vars : result.Vars) :
    GetQueryResultsPages request result.callback (delivered p ps ++ rest) vars =
      (List.replicate (ps.length + 1) request, .ret (vars.seen (p :: ps), none)) := by
  induction ps generalizing p vars with
  | nil =>
    cases vars with
    | mk metadata pages =>
      cases metadata <;> cases hp : p.ResultSetMetadata <;>
        simp [delivered, GetQueryResultsPages, result.callback, GetQueryResultsResponse.last,
          result.Vars.seen, firstMetadata, hp]
  | cons q qs ih =>
    cases vars with
    | mk metadata pages =>
      cases metadata <;> cases hp : p.ResultSetMetadata <;>
        simp [delivered, GetQueryResultsPages, result.callback, GetQueryResultsResponse.more,
          ih, Run.after, result.Vars.seen, firstMetadata, hp, List.replicate_succ]

/-- The run of `result` over a delivered sequence of result sets. -/
theorem result_delivered (client : World) (queryExecutionId : Option String) (perPage : Int)
    (p : ResultSet) (ps : List ResultSet) (rest : List GetQueryResultsResponse)
    (hfetch : client.GetQueryResults = delivered p ps ++ rest) :
    result client queryExecutionId perPage =
      (List.replicate (ps.length + 1) (Event.GetQueryResults queryExecutionId perPage),
        .ret (firstMetadata (p :: ps),
          some ((p :: ps).map fun resultSet => resultSet.Rows), none)) := by
  unfold result
  rw [hfetch, GetQueryResultsPages_delivered]
  simp [Run.bind, result.Vars.seen]

/-- C4: when the service delivers the result sets `p, ps` page by page, the last
one flagged as last page, `result` makes one request per page and returns their
row sequences as its pages, in fetch order; the concatenation of the returned
pages is the concatenation of the row sequences delivered. -/
theorem result_keeps_pages_in_fetch_order (client : World)
    (queryExecutionId : Option String) (perPage : Int)
    (p : ResultSet) (ps : List ResultSet) (rest : List GetQueryResultsResponse)
    (hfetch : client.GetQueryResults = delivered p ps ++ rest) :
    result client queryExecutionId perPage =
        (List.replicate (ps.length + 1) (Event.GetQueryResults queryExecutionId perPage),
          .ret (firstMetadata (p :: ps),
            some ((p :: ps).map fun resultSet => resultSet.Rows), none)) ∧
      ((p :: ps).map fun resultSet => resultSet.Rows).flatten =
        (p :: ps).flatMap fun resultSet => resultSet.Rows := by
  refine ⟨result_delivered client queryExecutionId perPage p ps rest hfetch, ?_⟩
  simp [List.flatMap]

/-- C4 at two pages, of two rows and of one row. -/
theorem result_keeps_pages_in_fetch_order_witness :
    (result ⟨"s3://bucket", .ok ⟨some "id"⟩, [],
        [.more ⟨none, [some (Row.ofStrings ["a", "1"]), some (Row.ofStrings ["b", "2"])]⟩,
          .last ⟨none, [some (Row.ofStrings ["c", "3"])]⟩]⟩ (some "id") 100).2 =
      .ret (none,
        some [[some (Row.ofStrings ["a", "1"]), some (Row.ofStrings ["b", "2"])],
          [some (Row.ofStrings ["c", "3"])]], none) :=
  congrArg Prod.snd
    (result_keeps_pages_in_fetch_order
      ⟨"s3://bucket", .ok ⟨some "id"⟩, [],
        [.more ⟨none, [some (Row.ofStrings ["a", "1"]), some (Row.ofStrings ["b", "2"])]⟩,
          .last ⟨none, [some (Row.ofStrings ["c", "3"])]⟩]⟩ (some "id") 100
      ⟨none, [some (Row.ofStrings ["a", "1"]), some (Row.ofStrings ["b", "2"])]⟩
      [⟨none, [some (Row.ofStrings ["c", "3"])]⟩] [] rfl).1

/-- C5, as stated, fails: when the first page carries a nil `ResultSetMetadata`
and the second page carries one, `result` returns the metadata of the second
page, which is not that of the first. -/
theorem result_metadata_taken_from_second_page :
    (result ⟨"s3://bucket", .ok ⟨some "id"⟩, [],
        delivered ⟨none, [some (Row.ofStrings ["a"])]⟩
          [⟨some ⟨[some ⟨some "late"⟩]⟩, [some (Row.ofStrings ["b"])]⟩]⟩ (some "id") 100).2 =
      .ret (some ⟨[some ⟨some "late"⟩]⟩,
        some [[some (Row.ofStrings ["a"])], [some (Row.ofStrings ["b"])]], none) ∧
    (⟨none, [some (Row.ofStrings ["a"])]⟩ : ResultSet).ResultSetMetadata ≠
      some ⟨[some ⟨some "late"⟩]⟩ :=
  ⟨rfl, by decide⟩

/-- C5, amended: when the service delivers the result sets `p, ps`, the metadata
`result` returns is the first non-nil metadata in fetch order (nil when no page
carries one); when the first page carries a metadata, that is the one returned,
whatever the later pages carry. -/
theorem result_metadata_first_non_nil (client : World)
    (queryExecutionId : Option String) (perPage : Int)
    (p : ResultSet) (ps : List ResultSet) (rest : List GetQueryResultsResponse)
    (hfetch : client.GetQueryResults = delivered p ps ++ rest) :
    (∃ pages, (result client queryExecutionId perPage).2 =
        .ret (firstMetadata (p :: ps), some pages, none)) ∧
      (∀ metadata, p.ResultSetMetadata = some metadata →
        ∃ pages, (result client queryExecutionId perPage).2 =
          .ret (some metadata, some pages, none)) := by
  have hrun := result_delivered client queryExecutionId perPage p ps rest hfetch
  refine ⟨⟨_, congrArg Prod.snd hrun⟩, ?_⟩
  intro metadata hp
  refine ⟨(p :: ps).map fun resultSet => resultSet.Rows, ?_⟩
  rw [hrun]
  simp [firstMetadata, hp]

/-- C5, amended, at two pages that carry different column sets. -/
theorem result_metadata_first_non_nil_witness :
    ∃ pages, (result ⟨"s3://bucket", .ok ⟨some "id"⟩, [],
        delivered ⟨some ⟨[some ⟨some "first"⟩]⟩, []⟩ [⟨some ⟨[some ⟨some "late"⟩]⟩, []⟩]⟩
        (some "id") 100).2 = .ret (some ⟨[some ⟨some "first"⟩]⟩, some pages, none) :=
  (result_metadata_first_non_nil
    ⟨"s3://bucket", .ok ⟨some "id"⟩, [],
      delivered ⟨some ⟨[some ⟨some "first"⟩]⟩, []⟩ [⟨some ⟨[some ⟨some "late"⟩]⟩, []⟩]⟩
    (some "id") 100 ⟨some ⟨[some ⟨some "first"⟩]⟩, []⟩ [⟨some ⟨[some ⟨some "late"⟩]⟩, []⟩] []
    rfl).2 ⟨[some ⟨some "first"⟩]⟩ rfl

/-- C7: when a page request fails, on the first page or after any number of
pages have been accumulated, `result` returns a nil metadata, a nil slice of
pages and the error of that request. -/
theorem result_discards_pages_on_error (client : World)
    (queryExecutionId : Option String) (perPage : Int)
    (sets : List ResultSet) (err : Error) (rest : List GetQueryResultsResponse)
    (hfetch : client.GetQueryResults = sets.map .more ++ .error err :: rest) :
    result client queryExecutionId perPage =
      (List.replicate (sets.length + 1) (Event.GetQueryResults queryExecutionId perPage),
        .ret (none, none, some err)) := by
  unfold result
  rw [hfetch, GetQueryResultsPages_more]
  simp [GetQueryResultsPages, Run.bind, Run.after, List.replicate_succ']

/-- C7 at one page accumulated, with its metadata and a row, then an error. -/
theorem result_discards_pages_on_error_witness :
    result ⟨"s3://bucket", .ok ⟨some "id"⟩, [],
        [.more ⟨some ⟨[some ⟨some "c"⟩]⟩, [some (Row.ofStrings ["a"])]⟩,
          .error (.aws "ThrottlingException")]⟩ (some "id") 100 =
      ([.GetQueryResults (some "id") 100, .GetQueryResults (some "id") 100],
        .ret (none, none, some (.aws "ThrottlingException"))) :=
  result_discards_pages_on_error
    ⟨"s3://bucket", .ok ⟨some "id"⟩, [],
      [.more ⟨some ⟨[some ⟨some "c"⟩]⟩, [some (Row.ofStrings ["a"])]⟩,
        .error (.aws "ThrottlingException")]⟩ (some "id") 100
    [⟨some ⟨[some ⟨some "c"⟩]⟩, [some (Row.ofStrings ["a"])]⟩] (.aws "ThrottlingException") []
    rfl

/-! ## The formatters -/

/-- The loop of `output` over the cells, begun on a slice whose cells before
`i` are `filled` and which has one more cell for each cell still to come, ends
with `filled` followed by the texts of the cells. -/
theorem output_fill_eq (data : List (Option Datum)) (filled blank : List String)
    (hblank : blank.length = data.length) :
    output.fill data filled.length (filled ++ blank) = filled ++ data.map cellText := by
  induction data generalizing filled blank with
  | nil =>
    have : blank = [] := List.length_eq_zero.mp hblank
    simp [output.fill, this]
  | cons col rest ih =>
    cases blank with
    | nil => simp at hblank
    | cons b blank =>
      have hlen : blank.length = rest.length := by simpa using hblank
      have step : ∀ text : String,
          output.fill rest (filled.length + 1) (filled ++ text :: blank) =
            filled ++ text :: rest.map cellText := by
        intro text
        have h := ih (filled ++ [text]) blank hlen
        simpa using h
      cases col with
      | none => simp [output.fill, cellText, step]
      | some datum =>
        cases hv : datum.VarCharValue <;> simp [output.fill, cellText, hv, step]

/-- The loop of `outputTable` over the cells: as `output_fill_eq`. -/
theorem outputTable_fill_eq (data : List (Option Datum)) (filled blank : List String)
    (hblank : blank.length = data.length) :
    outputTable.fill data filled.length (filled ++ blank) = filled ++ data.map cellText := by
  induction data generalizing filled blank with
  | nil =>
    have : blank = [] := List.length_eq_zero.mp hblank
    simp [outputTable.fill, this]
  | cons col rest ih =>
    cases blank with
    | nil => simp at hblank
    | cons b blank =>
      have hlen : blank.length = rest.length := by simpa using hblank
      have step : ∀ text : String,
          outputTable.fill rest (filled.length + 1) (filled ++ text :: blank) =
            filled ++ text :: rest.map cellText := by
        intro text
        have h := ih (filled ++ [text]) blank hlen
        simpa using h
      cases col with
      | none => simp [outputTable.fill, cellText, step]
      | some datum =>
        cases hv : datum.VarCharValue <;> simp [outputTable.fill, cellText, hv, step]

/-- The string row of line mode holds the text of each cell, in order. -/
theorem output_strRow_eq (row : Row) : output.strRow row = row.Data.map cellText := by
  have h := output_fill_eq row.Data [] (List.replicate row.Data.length "") (by simp)
  simpa [output.strRow] using h

/-- The string row of table mode holds the text of each cell, in order. -/
theorem outputTable_strRow_eq (row : Row) : outputTable.strRow row = row.Data.map cellText := by
  have h := outputTable_fill_eq row.Data [] (List.replicate row.Data.length "") (by simp)
  simpa [outputTable.strRow] using h

/-- Line mode over a page of rows prints the line of each row, in order. -/
theorem output_page_rows (page : List Row) :
    output.page (page.map some) = (page.map fun row => lineOf (output.strRow row), .ret ()) := by
  induction page with
  | nil => rfl
  | cons row rows ih => simp [output.page, ih, Run.after, lineOf]

/-- Line mode over pages of rows prints the line of each row, page by page. -/
theorem output_pages_rows (pages : List (List Row)) :
    output.pages (rowPages pages) =
      (pages.flatten.map fun row => lineOf (output.strRow row), .ret ()) := by
  induction pages with
  | nil => rfl
  | cons page rest ih =>
    have ih2 : output.pages (List.map (fun page => List.map some page) rest) =
        (rest.flatten.map fun row => lineOf (output.strRow row), .ret ()) := ih
    simp [rowPages, output.pages, output_page_rows, Run.bind, ih2]

/-- The run of `output` over pages of rows. -/
theorem output_rows (metadata : Option ResultSetMetadata) (pages : List (List Row))
    (perPage : Int) :
    output metadata (some (rowPages pages)) perPage =
      (pages.flatten.map fun row => lineOf (output.strRow row), .ret none) := by
  simp [output, output_pages_rows, Run.bind]

/-- Table mode over a page of rows appends the string row of each row, in
order. -/
theorem outputTable_page_rows (page : List Row) (table : Table) :
    outputTable.page (page.map some) table =
      some { table with lines := table.lines ++ page.map outputTable.strRow } := by
  induction page generalizing table with
  | nil => simp [outputTable.page]
  | cons row rows ih => simp [outputTable.page, ih]

/-- Table mode over pages of rows appends the string row of each row, page by
page. -/
theorem outputTable_pages_rows (pages : List (List Row)) (table : Table) :
    outputTable.pages (rowPages pages) table =
      some { table with lines := table.lines ++ pages.flatten.map outputTable.strRow } := by
  induction pages generalizing table with
  | nil => simp [rowPages, outputTable.pages]
  | cons page rest ih =>
    have ih2 : ∀ table : Table,
        outputTable.pages (List.map (fun page => List.map some page) rest) table =
          some { table with
            lines := table.lines ++ rest.flatten.map outputTable.strRow } := ih
    simp [rowPages, outputTable.pages, outputTable_page_rows, ih2]

/-- The loop of `outputTable` over columns that all have a name, begun on a
slice whose cells before `i` are `filled`, ends with `filled` followed by the
names. -/
theorem outputTable_fillHeader_eq (columns : List (Option ColumnInfo)) (names : List String)
    (filled blank : List String)
    (hcolumns : columns = names.map fun name => some ⟨some name⟩)
    (hblank : blank.length = columns.length) :
    outputTable.fillHeader columns filled.length (filled ++ blank) = some (filled ++ names) := by
  induction names generalizing columns filled blank with
  | nil =>
    subst hcolumns
    have : blank = [] := List.length_eq_zero.mp (by simpa using hblank)
    simp [outputTable.fillHeader, this]
  | cons name names ih =>
    subst hcolumns
    cases blank with
    | nil => simp at hblank
    | cons b blank =>
      have hlen : blank.length = (names.map fun name => some (ColumnInfo.mk (some name))).length := by
        simpa using hblank
      have h := ih _ (filled ++ [name]) blank rfl hlen
      simp only [List.map_cons, outputTable.fillHeader]
      simpa using h

/-- Columns that all have a name are the images of their names. -/
theorem columns_of_names (columns : List (Option ColumnInfo))
    (hnames : ∀ c ∈ columns, ∃ name, c = some ⟨some name⟩) :
    ∃ names : List String, columns = names.map fun name => some ⟨some name⟩ := by
  induction columns with
  | nil => exact ⟨[], rfl⟩
  | cons c cs ih =>
    obtain ⟨name, hc⟩ := hnames c (List.mem_cons_self _ _)
    obtain ⟨names, hcs⟩ := ih fun x hx => hnames x (List.mem_cons_of_mem _ hx)
    exact ⟨name :: names, by simp [hc, ← hcs]⟩

/-- C3: for every list of pages of rows, every row of them and every cell
position `i` of that row, `output` and `outputTable` both run to the end, and
the string row each of them produces for that row (the one `output` prints,
joined, as its line for the row, and the one `outputTable` hands to the table
that it renders, at the place of the row) holds at position `i` the literal
`null` when the cell is nil or its `VarCharValue` is nil, and the value of the
cell, unchanged, otherwise.  Table mode is run with a metadata whose columns all
have a name, without which `outputTable` panics on the header before it reaches
a row. -/
theorem null_cells_render_as_null (metadata : ResultSetMetadata)
    (lineMetadata : Option ResultSetMetadata)
    (pages : List (List Row)) (perPage : Int)
    (page : List Row) (row : Row) (i : Nat) (cell : Option Datum)
    (hnames : ∀ c ∈ metadata.ColumnInfo, ∃ name, c = some ⟨some name⟩)
    (hpage : page ∈ pages) (hrow : row ∈ page) (hcell : row.Data[i]? = some cell) :
    ∃ (j : Nat) (strRow tableRow header : List String) (lines : List (List String)),
      pages.flatten[j]? = some row ∧
      (output lineMetadata (some (rowPages pages)) perPage).2 = .ret none ∧
      (output lineMetadata (some (rowPages pages)) perPage).1[j]? =
        some (Event.Printf (String.intercalate "," strRow ++ "\n")) ∧
      strRow = output.strRow row ∧
      outputTable (some metadata) (some (rowPages pages)) perPage =
        ([.Render header lines], .ret none) ∧
      lines[j]? = some tableRow ∧
      tableRow = outputTable.strRow row ∧
      ((cell = none ∨ ∃ datum, cell = some datum ∧ datum.VarCharValue = none) →
        strRow[i]? = some "null" ∧ tableRow[i]? = some "null") ∧
      (∀ datum value, cell = some datum → datum.VarCharValue = some value →
        strRow[i]? = some value ∧ tableRow[i]? = some value) := by
  have hmem : row ∈ pages.flatten := List.mem_flatten.mpr ⟨page, hpage, hrow⟩
  obtain ⟨j, hj⟩ := List.getElem?_of_mem hmem
  obtain ⟨names, hcolumns⟩ := columns_of_names metadata.ColumnInfo hnames
  have hheader := outputTable_fillHeader_eq metadata.ColumnInfo names []
    (List.replicate metadata.ColumnInfo.length "") hcolumns (by simp)
  simp only [List.length_nil, List.nil_append] at hheader
  refine ⟨j, output.strRow row, outputTable.strRow row, names,
    pages.flatten.map outputTable.strRow, hj, ?_, ?_, rfl, ?_, ?_, rfl, ?_, ?_⟩
  · rw [output_rows]
  · rw [output_rows]
    simp only [List.getElem?_map, hj]
    rfl
  · simp [outputTable, hheader, outputTable_pages_rows]
  · simp only [List.getElem?_map, hj]
    rfl
  · rintro (hnil | ⟨datum, hsome, hnull⟩)
    · simp [output_strRow_eq, outputTable_strRow_eq, hcell, hnil, cellText]
    · simp [output_strRow_eq, outputTable_strRow_eq, hcell, hsome, hnull, cellText]
  · intro datum value hsome hvalue
    simp [output_strRow_eq, outputTable_strRow_eq, hcell, hsome, hvalue, cellText]

/-- C3 at the row `b, null` of the pages of scenario A, position 1. -/
theorem null_cells_render_as_null_witness :
    ∃ (j : Nat) (strRow tableRow header : List String) (lines : List (List String)),
      ([[Row.ofStrings ["a", "1"], ⟨[some ⟨some "b"⟩, some ⟨none⟩]⟩],
        [Row.ofStrings ["c", "3"]]] : List (List Row)).flatten[j]? =
          some ⟨[some ⟨some "b"⟩, some ⟨none⟩]⟩ ∧
      (output none (some (rowPages [[Row.ofStrings ["a", "1"],
        ⟨[some ⟨some "b"⟩, some ⟨none⟩]⟩], [Row.ofStrings ["c", "3"]]])) 100).2 = .ret none ∧
      (output none (some (rowPages [[Row.ofStrings ["a", "1"],
        ⟨[some ⟨some "b"⟩, some ⟨none⟩]⟩], [Row.ofStrings ["c", "3"]]])) 100).1[j]? =
        some (Event.Printf (String.intercalate "," strRow ++ "\n")) ∧
      strRow = output.strRow ⟨[some ⟨some "b"⟩, some ⟨none⟩]⟩ ∧
      outputTable (some ⟨[some ⟨some "letter"⟩, some ⟨some "digit"⟩]⟩)
          (some (rowPages [[Row.ofStrings ["a", "1"], ⟨[some ⟨some "b"⟩, some ⟨none⟩]⟩],
            [Row.ofStrings ["c", "3"]]])) 100 =
        ([.Render header lines], .ret none) ∧
      lines[j]? = some tableRow ∧
      tableRow = outputTable.strRow ⟨[some ⟨some "b"⟩, some ⟨none⟩]⟩ ∧
      (((some ⟨none⟩ : Option Datum) = none ∨
          ∃ datum, (some ⟨none⟩ : Option Datum) = some datum ∧ datum.VarCharValue = none) →
        strRow[1]? = some "null" ∧ tableRow[1]? = some "null") ∧
      (∀ datum value, (some ⟨none⟩ : Option Datum) = some datum →
        datum.VarCharValue = some value →
        strRow[1]? = some value ∧ tableRow[1]? = some value) :=
  null_cells_render_as_null ⟨[some ⟨some "letter"⟩, some ⟨some "digit"⟩]⟩ none
    [[Row.ofStrings ["a", "1"], ⟨[some ⟨some "b"⟩, some ⟨none⟩]⟩], [Row.ofStrings ["c", "3"]]]
    100 [Row.ofStrings ["a", "1"], ⟨[some ⟨some "b"⟩, some ⟨none⟩]⟩]
    ⟨[some ⟨some "b"⟩, some ⟨none⟩]⟩ 1 (some ⟨none⟩)
    (by
      intro c hc
      simp only [List.mem_cons, List.mem_singleton, List.not_mem_nil, or_false] at hc
      rcases hc with hc | hc
      · exact ⟨"letter", hc⟩
      · exact ⟨"digit", hc⟩)
    (by simp) (by simp) rfl

/-- C6: for every list of pages of rows, `output` returns a nil error and prints
one line per row, in page order and then in row order: the texts of the cells of
the row (`null` for a missing cell) joined by commas, and a newline.  For the
pages of scenario A the text printed is `a,1\nb,null\nc,3\n`. -/
theorem output_prints_one_line_per_row (metadata : Option ResultSetMetadata)
    (pages : List (List Row)) (perPage : Int) :
    output metadata (some (rowPages pages)) perPage =
        (pages.flatten.map fun row =>
            Event.Printf (String.intercalate "," (row.Data.map cellText) ++ "\n"),
          .ret none) ∧
      printed (output metadata
        (some (rowPages [[Row.ofStrings ["a", "1"], ⟨[some ⟨some "b"⟩, some ⟨none⟩]⟩],
          [Row.ofStrings ["c", "3"]]])) perPage).1 = "a,1\nb,null\nc,3\n" := by
  refine ⟨?_, ?_⟩
  · rw [output_rows]
    simp [lineOf, output_strRow_eq]
  · rw [output_rows]
    decide

/-- C9: for every metadata whose columns all have a name and every list of pages
of rows, `outputTable` returns a nil error and renders one table: its header is
the names of the columns, in column order, and its data rows are, in page order
and then in row order, the string rows that `output` builds for the rows, so
that `output` prints the data rows joined by commas. -/
theorem outputTable_matches_output (metadata : ResultSetMetadata)
    (pages : List (List Row)) (perPage : Int)
    (hnames : ∀ c ∈ metadata.ColumnInfo, ∃ name, c = some ⟨some name⟩) :
    ∃ header lines,
      outputTable (some metadata) (some (rowPages pages)) perPage =
        ([.Render header lines], .ret none) ∧
      (header.map fun name => some (ColumnInfo.mk (some name))) = metadata.ColumnInfo ∧
      lines = pages.flatten.map output.strRow ∧
      (output (some metadata) (some (rowPages pages)) perPage).1 =
        lines.map fun strRow => Event.Printf (String.intercalate "," strRow ++ "\n") := by
  obtain ⟨names, hcolumns⟩ := columns_of_names metadata.ColumnInfo hnames
  have hheader := outputTable_fillHeader_eq metadata.ColumnInfo names []
    (List.replicate metadata.ColumnInfo.length "") hcolumns (by simp)
  have hfun : outputTable.strRow = output.strRow := by
    funext row
    rw [outputTable_strRow_eq, output_strRow_eq]
  refine ⟨names, pages.flatten.map output.strRow, ?_, hcolumns.symm, rfl, ?_⟩
  · simp only [List.length_nil, List.nil_append] at hheader
    simp [outputTable, hheader, outputTable_pages_rows, hfun]
  · rw [output_rows, List.map_map]
    rfl

/-- C9 at the metadata and the pages of scenario A. -/
theorem outputTable_matches_output_witness :
    ∃ header lines,
      outputTable (some ⟨[some ⟨some "letter"⟩, some ⟨some "digit"⟩]⟩)
          (some (rowPages [[Row.ofStrings ["a", "1"], ⟨[some ⟨some "b"⟩, some ⟨none⟩]⟩],
            [Row.ofStrings ["c", "3"]]])) 100 =
        ([.Render header lines], .ret none) ∧
      (header.map fun name => some (ColumnInfo.mk (some name))) =
        [some ⟨some "letter"⟩, some ⟨some "digit"⟩] ∧
      lines = ([[Row.ofStrings ["a", "1"], ⟨[some ⟨some "b"⟩, some ⟨none⟩]⟩],
        [Row.ofStrings ["c", "3"]]] : List (List Row)).flatten.map output.strRow ∧
      (output (some ⟨[some ⟨some "letter"⟩, some ⟨some "digit"⟩]⟩)
          (some (rowPages [[Row.ofStrings ["a", "1"], ⟨[some ⟨some "b"⟩, some ⟨none⟩]⟩],
            [Row.ofStrings ["c", "3"]]])) 100).1 =
        lines.map fun strRow => Event.Printf (String.intercalate "," strRow ++ "\n") :=
  outputTable_matches_output ⟨[some ⟨some "letter"⟩, some ⟨some "digit"⟩]⟩
    [[Row.ofStrings ["a", "1"], ⟨[some ⟨some "b"⟩, some ⟨none⟩]⟩], [Row.ofStrings ["c", "3"]]]
    100 (by
      intro c hc
      simp only [List.mem_cons, List.mem_singleton, List.not_mem_nil, or_false] at hc
      rcases hc with hc | hc
      · exact ⟨"letter", hc⟩
      · exact ⟨"digit", hc⟩)

/-- C10: line mode neither quotes nor escapes.  The one-cell row `a,b` and the
two-cell row `a`, `b` are different rows and `output` prints the same line `a,b`
for both; a cell that holds the string `null`, a nil cell and a cell whose value
is nil are different cells and `output` prints the same line `null` for them. -/
theorem output_is_lossy :
    Row.ofStrings ["a,b"] ≠ Row.ofStrings ["a", "b"] ∧
      output none (some (rowPages [[Row.ofStrings ["a,b"]]])) 100 =
        ([.Printf "a,b\n"], .ret none) ∧
      output none (some (rowPages [[Row.ofStrings ["a", "b"]]])) 100 =
        ([.Printf "a,b\n"], .ret none) ∧
      Row.ofStrings ["null"] ≠ ⟨[none]⟩ ∧
      Row.ofStrings ["null"] ≠ ⟨[some ⟨none⟩]⟩ ∧
      output none (some (rowPages [[Row.ofStrings ["null"]]])) 100 =
        ([.Printf "null\n"], .ret none) ∧
      output none (some (rowPages [[⟨[none]⟩]])) 100 = ([.Printf "null\n"], .ret none) ∧
      output none (some (rowPages [[⟨[some ⟨none⟩]⟩]])) 100 =
        ([.Printf "null\n"], .ret none) := by
  refine ⟨by decide, ?_, ?_, by decide, by decide, ?_, ?_, ?_⟩ <;> decide

/-! ## `main` -/

/-- When the submit call fails, `execute` returns its error. -/
theorem execute_submit_error (str : GetQueryExecutionOutput → String) (client : World)
    (query : String) (err : Error) (hstart : client.StartQueryExecution = .error err) :
    (execute str client query).2 = .ret (none, some err) := by
  simp [execute, hstart]

/-- When a status call fails after Queued or Running states, `execute` returns
its error. -/
theorem execute_status_error (str : GetQueryExecutionOutput → String)
    (client : World) (query : String) (output : StartQueryExecutionOutput)
    (waiting : List GetQueryExecutionOutput) (err : Error)
    (rest : List (Except Error GetQueryExecutionOutput))
    (hstart : client.StartQueryExecution = .ok output)
    (hpoll : client.GetQueryExecution = waiting.map .ok ++ .error err :: rest)
    (hwaiting : ∀ o ∈ waiting, stateOf o = some QueryExecutionStateQueued ∨
      stateOf o = some QueryExecutionStateRunning) :
    (execute str client query).2 = .ret (none, some err) := by
  unfold execute
  rw [hstart, hpoll]
  simp only [Run.after_snd, execute_loop_waiting str _ waiting _ hwaiting]
  simp [execute.loop]

/-- C8: in every run in which `execute` returns an error, `main` panics with
that error right after `execute`: the events of the run are those of `execute`,
and among them there is no page request and nothing written to standard
output. -/
theorem main_aborts_when_execute_fails (str : GetQueryExecutionOutput → String)
    (client : World) (readableOpt : Bool) (queryOpt : String)
    (id : Option String) (err : Error)
    (hfail : (execute str client queryOpt).2 = .ret (id, some err)) :
    main str client readableOpt queryOpt =
        ((execute str client queryOpt).1, .panic (.error err)) ∧
      ∀ e ∈ (main str client readableOpt queryOpt).1,
        e.isFetch = false ∧ e.isStdout = false := by
  have hmain : main str client readableOpt queryOpt =
      ((execute str client queryOpt).1, .panic (.error err)) := by
    unfold main
    simp [Run.bind, hfail]
  refine ⟨hmain, ?_⟩
  rw [hmain]
  exact execute_events str client queryOpt

/-- C8 at scenario C: the statuses Queued, Running, Failed, with pages ready
that are never requested. -/
theorem main_aborts_when_execute_fails_witness :
    main (fun _ => "diagnostic")
        ⟨"s3://bucket", .ok ⟨some "id"⟩,
          [observed "QUEUED", observed "RUNNING", observed "FAILED"],
          [.last ⟨none, [some (Row.ofStrings ["a", "1"])]⟩]⟩ false "select 1" =
      ([.StartQueryExecution "select 1" "s3://bucket",
          .GetQueryExecution (some "id"), .Sleep 5000000000,
          .GetQueryExecution (some "id"), .Sleep 5000000000,
          .GetQueryExecution (some "id")],
        .panic (.error (.New "diagnostic"))) :=
  (main_aborts_when_execute_fails (fun _ => "diagnostic")
    ⟨"s3://bucket", .ok ⟨some "id"⟩,
      [observed "QUEUED", observed "RUNNING", observed "FAILED"],
      [.last ⟨none, [some (Row.ofStrings ["a", "1"])]⟩]⟩ false "select 1"
    none (.New "diagnostic") rfl).1

end AthenaQuery
